import Mathlib

/-!
Verification of the record-resolution and verdict pipeline of the
product-energy-level validator.

The Python sources are shallowly embedded: strings are Lean `String`
(a wrapper around `List Char`), Python `None` valued string fields are
modelled as `""` (both are falsy and the code only tests truthiness),
floats are modelled as `ℚ`, and the `difflib.SequenceMatcher(...).ratio()`
standard-library collaborator is a function parameter `ratio` whose
documented contract (a value in `[0, 1]`) is carried as a hypothesis
where a theorem needs it.  Thread scheduling is modelled by quantifying
over the order in which per-query computations complete.
-/

namespace PELV

/-- A CJK unified ideograph, the character class `[一-鿿]` used
throughout the sources. -/
def isCJK (c : Char) : Bool := 0x4e00 ≤ c.toNat && c.toNat ≤ 0x9fff

/-- Whitespace as removed by Python `str.strip()` (the ASCII whitespace
characters; the further Unicode whitespace code points behave the same
way and never occur in the identifiers and grade tokens modelled here). -/
def pyWS (c : Char) : Bool :=
  c = ' ' || c = '\t' || c = '\n' || c = '\r' || c = '\x0b' || c = '\x0c'

/-- `str.strip()` on the character list: drop leading then trailing
whitespace. -/
def pyStrip (l : List Char) : List Char :=
  ((l.dropWhile pyWS).reverse.dropWhile pyWS).reverse

/-- `str.strip()` on a `String`. -/
def stripS (s : String) : String := ⟨pyStrip s.data⟩

/-- Python `str.lower()` (ASCII case folding; CJK characters are
unaffected, exactly as in Python). -/
def lowerS (s : String) : String := ⟨s.data.map Char.toLower⟩

/-- Python substring test `needle in hay`. -/
def containsSub : List Char → List Char → Bool
  | n, [] => n.isEmpty
  | n, c :: t => n.isPrefixOf (c :: t) || containsSub n t

/-- Python `hay.startswith(pre)`. -/
def pyStartsWith (s pre : String) : Bool := pre.data.isPrefixOf s.data

/-- Python `pre in hay` on `String`s. -/
def pyIn (needle hay : String) : Bool := containsSub needle.data hay.data

/-! ## ResultComparator: grade normalization and the verdict decision
(src/result_comparator.py) -/

/-- `ResultComparator.level_mapping`: the static grade-normalization
table.  A `none` value models the Python `None` entries; `List.lookup`
returning `none` models a missing key, which `dict.get` also maps to
`None`. -/
def level_mapping : List (String × Option String) :=
  [("1", some "一级"), ("2", some "二级"), ("3", some "三级"),
   ("4", some "四级"), ("5", some "五级"),
   ("一级", some "一级"), ("二级", some "二级"), ("三级", some "三级"),
   ("四级", some "四级"), ("五级", some "五级"),
   ("1级", some "一级"), ("2级", some "二级"), ("3级", some "三级"),
   ("4级", some "四级"), ("5级", some "五级"),
   ("I", some "一级"), ("II", some "二级"), ("III", some "三级"),
   ("IV", some "四级"), ("V", some "五级"),
   ("未知", none), ("N/A", none), ("null", none), ("", none)]

/-- The character class kept by `re.sub(r'[^\w一-鿿]', '', level)`:
Python `\w` modelled for the ASCII range (letters, digits, underscore)
together with the explicit CJK range of the pattern; the grade tokens in
`level_mapping` use only these characters. -/
def isPyWordChar (c : Char) : Bool := c.isAlphanum || c = '_' || isCJK c

/-- `ResultComparator.normalize_energy_level`: empty input (Python falsy)
gives `none`; otherwise strip, remove the characters outside
`[\w一-鿿]`, and look the result up in `level_mapping`.  The
`Option.join` collapses the two Python `None` sources (missing key and
stored `None`) exactly as `dict.get` does. -/
def normalize_energy_level (level : String) : Option String :=
  if level = "" then none
  else (List.lookup ⟨(pyStrip level.data).filter isPyWordChar⟩ level_mapping).join

/-- `ResultComparator.compare_energy_levels`: the verdict decision.
(The values of `level_mapping` are all non-empty, so Python's truthiness
test on the normalized grade coincides with `Option.isSome`.) -/
def compare_energy_levels (excel_level search_level : String) : String :=
  match normalize_energy_level search_level with
  | none => "搜不到"
  | some ns =>
    match normalize_energy_level excel_level with
    | none => "Excel缺失"
    | some ne => if ne = ns then "正确" else "错误"

/-- C1: `compare_energy_levels` follows the decision table exactly: a
candidate level that does not normalize gives `搜不到` (NotFound); a
normalizable candidate with a non-normalizable declared level gives
`Excel缺失` (DeclaredMissing); when both normalize the verdict is `正确`
(Correct) iff the normalized grades are equal and `错误` (Incorrect)
otherwise — and an empty (or `None`) level normalizes to `none`. -/
theorem compare_energy_levels_decision_table :
    (∀ d c, normalize_energy_level c = none →
      compare_energy_levels d c = "搜不到") ∧
    (∀ d c gc, normalize_energy_level c = some gc →
      normalize_energy_level d = none →
      compare_energy_levels d c = "Excel缺失") ∧
    (∀ d c gd gc, normalize_energy_level d = some gd →
      normalize_energy_level c = some gc →
      compare_energy_levels d c = (if gd = gc then "正确" else "错误")) ∧
    normalize_energy_level "" = none := by
  refine ⟨fun d c h => ?_, fun d c gc hc hd => ?_, fun d c gd gc hd hc => ?_, by decide⟩
  · simp [compare_energy_levels, h]
  · simp [compare_energy_levels, hc, hd]
  · simp [compare_energy_levels, hc, hd]

/-- Witness for C1: the decision table evaluated on the spec's own
scenario rows. -/
theorem compare_energy_levels_decision_table_witness :
    compare_energy_levels "一级" "invalid" = "搜不到" ∧
    compare_energy_levels "" "2级" = "Excel缺失" ∧
    compare_energy_levels "一级" "1" = "正确" ∧
    compare_energy_levels "三级" "V" = "错误" := by
  refine ⟨compare_energy_levels_decision_table.1 "一级" "invalid" (by decide),
    compare_energy_levels_decision_table.2.1 "" "2级" "二级" (by decide) (by decide),
    ?_, ?_⟩
  · have h := compare_energy_levels_decision_table.2.2.1 "一级" "1" "一级" "一级"
      (by decide) (by decide)
    simpa using h
  · have h := compare_energy_levels_decision_table.2.2.1 "三级" "V" "三级" "五级"
      (by decide) (by decide)
    simpa using h

/-! ## RelevanceChecker: brand extraction and the brand check
(src/relevance_checker.py) -/

/-- The brand keyword list of `RelevanceChecker.extract_brand_info`,
in source order (first match wins). -/
def rcBrands : List String :=
  ["格力", "美的", "海尔", "奥克斯", "志高", "春兰", "科龙",
   "小米", "米家", "华为", "荣耀", "苹果", "三星", "索尼",
   "海信", "创维", "TCL", "长虹", "康佳", "飞利浦",
   "西门子", "博世", "松下", "东芝", "夏普", "LG"]

/-- The loop of `RelevanceChecker.extract_brand_info`: return the first
brand contained in the model (`brand in model or brand.lower() in
model_lower`), else the empty string. -/
def findContainedBrand (model : String) : List String → String
  | [] => ""
  | b :: bs =>
    if pyIn b model || pyIn (lowerS b) (lowerS model) then b
    else findContainedBrand model bs

/-- `RelevanceChecker.extract_brand_info`. -/
def extract_brand_info (model : String) : String := findContainedBrand model rcBrands

/-- The brand check of `RelevanceChecker.is_relevant_match` (step 3):
it declares the match not relevant exactly when both identifiers resolve
a brand token and the two tokens are different strings. -/
def brand_check_rejects (original_model matched_model : String) : Bool :=
  let b1 := extract_brand_info original_model
  let b2 := extract_brand_info matched_model
  b1 != "" && b2 != "" && b1 != b2

/-- The static brand-alias table (`brand_aliases` in
`ResultComparator.brands_similar`): each main brand with its
spelling/transliteration/legal-name variants. -/
def brand_aliases : List (String × List String) :=
  [("格力", ["GREE", "gree", "珠海格力", "格力电器"]),
   ("美的", ["MIDEA", "midea", "美的集团", "美的电器"]),
   ("海尔", ["HAIER", "haier", "海尔集团", "青岛海尔"]),
   ("奥克斯", ["AUX", "aux", "奥克斯集团"]),
   ("志高", ["CHIGO", "chigo", "志高空调"]),
   ("TCL", ["tcl", "TCL集团", "TCL电器"]),
   ("海信", ["HISENSE", "hisense", "海信集团"]),
   ("长虹", ["CHANGHONG", "changhong", "四川长虹"]),
   ("科龙", ["KELON", "kelon", "海信科龙"]),
   ("容声", ["RONSHEN", "ronshen"]),
   ("华凌", ["WAHIN", "wahin"]),
   ("卡萨帝", ["CASARTE", "casarte"]),
   ("统帅", ["LEADER", "leader"]),
   ("小天鹅", ["LITTLESWAN", "littleswan"]),
   ("三星", ["SAMSUNG", "samsung"]),
   ("松下", ["PANASONIC", "panasonic"]),
   ("三菱", ["MITSUBISHI", "mitsubishi"]),
   ("大金", ["DAIKIN", "daikin"]),
   ("西门子", ["SIEMENS", "siemens"]),
   ("博世", ["BOSCH", "bosch"]),
   ("惠而浦", ["WHIRLPOOL", "whirlpool"])]

/-- Alias-equivalence of two brand tokens as the specification defines
it: the same manufacturer via the static table — case-insensitive
equality, or membership of both tokens in the same alias family of
`brand_aliases`. -/
def aliasEquiv (b1 b2 : String) : Bool :=
  lowerS b1 == lowerS b2 ||
  brand_aliases.any (fun p =>
    let fam := lowerS p.1 :: p.2.map lowerS
    fam.contains (lowerS b1) && fam.contains (lowerS b2))

/-- `extract_brand_info` returns either `""` or a member of its brand
list. -/
theorem findContainedBrand_mem (model : String) (bs : List String) :
    findContainedBrand model bs = "" ∨ findContainedBrand model bs ∈ bs := by
  induction bs with
  | nil => exact Or.inl rfl
  | cons b t ih =>
    simp only [findContainedBrand]
    split
    · exact Or.inr (List.mem_cons_self _ _)
    · rcases ih with h | h
      · exact Or.inl h
      · exact Or.inr (List.mem_cons_of_mem _ h)

/-- On the tokens `extract_brand_info` can produce, alias-equivalence
coincides with string equality: no two distinct members of the brand
keyword list belong to a common alias family. -/
theorem rcBrands_alias_key :
    (rcBrands.all (fun x => rcBrands.all (fun y => aliasEquiv x y == (x == y)))) = true := by
  decide

/-- C9: in the relevance re-validator's brand check, when a brand token
is resolved from both the original identifier and the matched model, the
match is judged not relevant exactly when the two tokens are not
alias-equivalent via the static alias table; in particular
alias-equivalent brand pairs never trigger a not-relevant outcome from
this check. -/
theorem brand_check_iff_not_alias_equivalent (o m : String)
    (h1 : extract_brand_info o ≠ "") (h2 : extract_brand_info m ≠ "") :
    brand_check_rejects o m = true ↔
      aliasEquiv (extract_brand_info o) (extract_brand_info m) = false := by
  have m1 : extract_brand_info o ∈ rcBrands :=
    (findContainedBrand_mem o rcBrands).resolve_left h1
  have m2 : extract_brand_info m ∈ rcBrands :=
    (findContainedBrand_mem m rcBrands).resolve_left h2
  have key := rcBrands_alias_key
  rw [List.all_eq_true] at key
  have k2 := (List.all_eq_true.mp (key _ m1)) _ m2
  have k3 : aliasEquiv (extract_brand_info o) (extract_brand_info m) =
      (extract_brand_info o == extract_brand_info m) := by
    simpa using k2
  simp only [brand_check_rejects, Bool.and_eq_true, bne_iff_ne, ne_eq, k3,
    beq_eq_false_iff_ne]
  tauto

/-- Witness for C9 at a concrete brand-bearing pair (`格力` vs `美的`:
distinct, not alias-equivalent, so the check rejects). -/
theorem brand_check_iff_not_alias_equivalent_witness :
    extract_brand_info "格力KFR-35GW" ≠ "" ∧
    extract_brand_info "美的KFR-26GW" ≠ "" ∧
    (brand_check_rejects "格力KFR-35GW" "美的KFR-26GW" = true ↔
      aliasEquiv (extract_brand_info "格力KFR-35GW")
        (extract_brand_info "美的KFR-26GW") = false) :=
  ⟨by decide, by decide,
    brand_check_iff_not_alias_equivalent "格力KFR-35GW" "美的KFR-26GW"
      (by decide) (by decide)⟩

/-! ## FastValidator._perform_relevance_check (src/main_fast.py) -/

/-- One per-query result record, as the dict built by
`FastBatchProcessor._search_single_product` (the optional keys
`search_energy_level`, `matched_model`, `producer` default to `""`,
which is what `dict.get(key, '')` yields when they are absent). -/
structure PResult where
  row_index : Nat
  original_model : String
  excel_energy_level : String
  search_success : Bool
  validation_result : String
  details : String
  search_energy_level : String := ""
  matched_model : String := ""
  producer : String := ""
deriving DecidableEq

/-- A default record, used only as the out-of-range value of
`List.getD`. -/
def dummyResult : PResult :=
  { row_index := 0, original_model := "", excel_energy_level := "",
    search_success := false, validation_result := "", details := "" }

/-- The per-result body of `FastValidator._perform_relevance_check`:
only a `错误` (Incorrect) result is re-checked, and it is downgraded to
`搜不到` (NotFound) with an explanatory detail exactly when
`is_relevant_match` denies relevance.  `isRel` abstracts
`RelevanceChecker.is_relevant_match` (whose text-similarity heuristics
rest on `difflib`); the theorem below holds for every such checker. -/
def relevance_update (isRel : String → String → Bool) (r : PResult) : PResult :=
  if r.validation_result = "错误" then
    if isRel r.original_model r.matched_model then r
    else { r with validation_result := "搜不到",
                  details := "产品不相关，判定为搜索无效: " ++ r.original_model }
  else r

/-- `FastValidator._perform_relevance_check`: the in-place update loop
over the result list. -/
def perform_relevance_check (isRel : String → String → Bool)
    (results : List PResult) : List PResult :=
  results.map (relevance_update isRel)

/-- C4: the relevance re-validation pass never changes a result whose
verdict is not `错误` (so `正确`, `搜不到` and `Excel缺失` results are
untouched), and a `错误` result is either left entirely unchanged or has
its verdict changed to `搜不到`; no other verdict transition occurs, and
the pass preserves the number of results. -/
theorem relevance_check_transitions (isRel : String → String → Bool)
    (results : List PResult) :
    (perform_relevance_check isRel results).length = results.length ∧
    ∀ i, i < results.length →
      ((results.getD i dummyResult).validation_result ≠ "错误" →
        (perform_relevance_check isRel results).getD i dummyResult =
          results.getD i dummyResult) ∧
      ((results.getD i dummyResult).validation_result = "错误" →
        (perform_relevance_check isRel results).getD i dummyResult =
          results.getD i dummyResult ∨
        ((perform_relevance_check isRel results).getD i dummyResult).validation_result
          = "搜不到") := by
  refine ⟨List.length_map _ _, fun i hi => ?_⟩
  have hi2 : i < (results.map (relevance_update isRel)).length := by
    simpa using hi
  have hget : (perform_relevance_check isRel results).getD i dummyResult =
      relevance_update isRel (results.getD i dummyResult) := by
    rw [perform_relevance_check, List.getD_eq_getElem _ _ hi2,
      List.getElem_map, List.getD_eq_getElem _ _ hi]
  refine ⟨fun hne => ?_, fun heq => ?_⟩
  · rw [hget, relevance_update, if_neg hne]
  · rw [hget, relevance_update, if_pos heq]
    by_cases hrel : isRel (results.getD i dummyResult).original_model
        (results.getD i dummyResult).matched_model
    · exact Or.inl (by rw [if_pos hrel])
    · exact Or.inr (by rw [if_neg hrel])

/-- Witness for C4: a two-element batch with one `正确` and one `错误`
result, under a checker that denies relevance. -/
theorem relevance_check_transitions_witness :
    ((perform_relevance_check (fun _ _ => false)
        [{ dummyResult with validation_result := "正确" },
         { dummyResult with validation_result := "错误" }]).getD 0 dummyResult =
      { dummyResult with validation_result := "正确" }) ∧
    ((perform_relevance_check (fun _ _ => false)
        [{ dummyResult with validation_result := "正确" },
         { dummyResult with validation_result := "错误" }]).getD 1 dummyResult =
      { dummyResult with validation_result := "错误" } ∨
     ((perform_relevance_check (fun _ _ => false)
        [{ dummyResult with validation_result := "正确" },
         { dummyResult with validation_result := "错误" }]).getD 1
          dummyResult).validation_result = "搜不到") := by
  have h := relevance_check_transitions (fun _ _ => false)
    [{ dummyResult with validation_result := "正确" },
     { dummyResult with validation_result := "错误" }]
  exact ⟨(h.2 0 (by decide)).1 (by decide), (h.2 1 (by decide)).2 (by decide)⟩

/-! ## ModelExtractor (src/model_extractor.py) -/

/-- `ModelExtractor.is_chinese`. -/
def is_chinese (c : Char) : Bool := isCJK c

/-- No newline among the characters (Python `.` does not match `\n`). -/
def noNewline (l : List Char) : Bool := l.all (fun c => !(c == '\n'))

/-- Whether `re.match(r'.*SUF$', s)` succeeds for a literal suffix
`SUF`: the string must end with the suffix (a single trailing newline is
tolerated by `$`) and the part consumed by `.*` must not contain a
newline. -/
def matchDotStarSuffix (suf : List Char) (s : List Char) : Bool :=
  let endOK := fun (cs : List Char) =>
    suf.isSuffixOf cs && noNewline (cs.take (cs.length - suf.length))
  endOK s || (s.getLast? == some '\n' && endOK s.dropLast)

/-- The version-suffix tokens of `ModelExtractor._has_version_suffix`
(the eleven source patterns collapse to these six under
`re.IGNORECASE`). -/
def version_suffixes : List String := ["版", "pro", "plus", "max", "mini", "lite"]

/-- `ModelExtractor._has_version_suffix`. -/
def has_version_suffix (m : String) : Bool :=
  version_suffixes.any (fun suf => matchDotStarSuffix suf.data (m.data.map Char.toLower))

/-- Python `model[n:].strip()`. -/
def stripDropS (m : String) (n : Nat) : String := ⟨pyStrip (m.data.drop n)⟩

/-- The brand-prefix loop shared by `extract_model` and
`_extract_with_version_suffix`: strip the first listed brand that
prefixes the model, or report that none does. -/
def stripFirstBrand (m : String) : List String → Option String
  | [] => none
  | b :: bs =>
    if pyStartsWith m b then some (stripDropS m b.data.length)
    else stripFirstBrand m bs

/-- The `common_brands` list of `ModelExtractor._extract_with_version_suffix`. -/
def version_common_brands : List String :=
  ["美的", "海尔", "奥克斯", "志高", "TCL", "小米", "米家"]

/-- The `common_brands` list of `ModelExtractor.extract_model`. -/
def common_brands : List String := ["美的", "海尔", "奥克斯", "志高", "TCL"]

/-- Every brand prefix recognized anywhere in `ModelExtractor`. -/
def extractorBrands : List String :=
  ["格力", "美的空调", "美的", "海尔", "奥克斯", "志高", "TCL", "小米", "米家"]

/-- `ModelExtractor._extract_with_version_suffix`. -/
def extract_with_version_suffix (m : String) : String :=
  if pyStartsWith m "格力" then stripDropS m 2
  else if pyStartsWith m "美的空调" then stripDropS m 4
  else
    match stripFirstBrand m version_common_brands with
    | some r => r
    | none => m

/-- Index of the first character failing `is_chinese`, as scanned by the
`for`/`else` loops of `ModelExtractor._extract_generic`. -/
def firstNonCJKIdx : List Char → Option Nat
  | [] => none
  | c :: t => if is_chinese c then (firstNonCJKIdx t).map (· + 1) else some 0

/-- `ModelExtractor._extract_generic`: drop the leading and the trailing
run of CJK characters, keep the middle, and fall back to the input when
every character is CJK (or when the middle slice is empty). -/
def extract_generic (m : String) : String :=
  match firstNonCJKIdx m.data with
  | none => m
  | some s =>
    match firstNonCJKIdx m.data.reverse with
    | none => m
    | some rj =>
      let e := m.data.length - rj
      let ext := (m.data.drop s).take (e - s)
      if ext.isEmpty then m else ⟨pyStrip ext⟩

/-- `ModelExtractor.extract_model`: the identifier normalizer. -/
def extract_model (original_model : String) : String :=
  if original_model = "" then ""
  else
    let m := stripS original_model
    if m = "" then ""
    else if has_version_suffix m then extract_with_version_suffix m
    else if pyStartsWith m "格力" then stripDropS m 2
    else if pyStartsWith m "美的空调" then stripDropS m 4
    else
      match stripFirstBrand m common_brands with
      | some r => r
      | none => if pyStartsWith m "RF" then m else extract_generic m

/-- A CJK ideograph is not Python whitespace. -/
theorem not_ws_of_cjk {c : Char} (h : isCJK c = true) : pyWS c = false := by
  cases hw : pyWS c
  · rfl
  · exfalso
    have hw2 := hw
    simp only [pyWS, Bool.or_eq_true, decide_eq_true_eq] at hw2
    rcases hw2 with ((((h1 | h1) | h1) | h1) | h1) | h1 <;> subst h1 <;>
      exact absurd h (by decide)

/-- `dropWhile pyWS` keeps an all-CJK list intact. -/
theorem dropWhile_of_forall_cjk {l : List Char} (h : ∀ c ∈ l, isCJK c = true) :
    l.dropWhile pyWS = l := by
  cases l with
  | nil => rfl
  | cons c t =>
    simp [List.dropWhile_cons, not_ws_of_cjk (h c (List.mem_cons_self c t))]

/-- `str.strip()` keeps an all-CJK string intact. -/
theorem pyStrip_of_forall_cjk {l : List Char} (h : ∀ c ∈ l, isCJK c = true) :
    pyStrip l = l := by
  unfold pyStrip
  rw [dropWhile_of_forall_cjk h,
    dropWhile_of_forall_cjk (fun c hc => h c (List.mem_reverse.mp hc)),
    List.reverse_reverse]

/-- The first-non-CJK scan finds nothing in an all-CJK list. -/
theorem firstNonCJKIdx_of_forall {l : List Char} (h : ∀ c ∈ l, isCJK c = true) :
    firstNonCJKIdx l = none := by
  induction l with
  | nil => rfl
  | cons c t ih =>
    have hc : is_chinese c = true := h c (List.mem_cons_self c t)
    simp [firstNonCJKIdx, hc, ih (fun d hd => h d (List.mem_cons_of_mem _ hd))]

/-- The brand-prefix loop finds nothing when no listed brand prefixes
the model. -/
theorem stripFirstBrand_none {m : String} {bs : List String}
    (h : ∀ b ∈ bs, pyStartsWith m b = false) : stripFirstBrand m bs = none := by
  induction bs with
  | nil => rfl
  | cons b t ih =>
    simp [stripFirstBrand, h b (List.mem_cons_self b t),
      ih fun b2 hb => h b2 (List.mem_cons_of_mem _ hb)]

/-- A non-empty all-CJK string does not start with `RF`. -/
theorem startsWith_RF_false {x : String} (hne : x ≠ "")
    (h : ∀ c ∈ x.data, isCJK c = true) : pyStartsWith x "RF" = false := by
  cases hd : x.data with
  | nil =>
    exfalso
    apply hne
    cases x with
    | mk d => simp at hd; subst hd; rfl
  | cons c t =>
    have hc := h c (by rw [hd]; exact List.mem_cons_self c t)
    cases hp : pyStartsWith x "RF"
    · rfl
    · exfalso
      rw [pyStartsWith, hd] at hp
      have hr : c = 'R' := by
        have := (List.isPrefixOf_iff_prefix).mp hp
        rcases this with ⟨r, hr⟩
        have : 'R' :: ('F' :: r) = c :: t := hr
        exact (List.cons.injEq _ _ _ _ ▸ this).1.symm ▸ rfl
      subst hr
      exact absurd hc (by decide)

/-- Counterexample to C7 as stated: `格力版` is composed entirely of CJK
ideographs, yet `extract_model` does not return it unchanged — the
version-suffix rule fires (the suffix `版` is itself CJK) and the brand
prefix `格力` is stripped, yielding `版`. -/
theorem extract_model_allCJK_cex :
    (∀ c ∈ ("格力版" : String).data, isCJK c = true) ∧
    extract_model "格力版" = "版" ∧
    extract_model "格力版" ≠ "格力版" := by decide

/-- C7 (amended): for every input composed entirely of CJK ideographs
that does not start with a recognized brand prefix, the identifier
normalizer returns the input unchanged. -/
theorem extract_model_allCJK_id (x : String)
    (hcjk : ∀ c ∈ x.data, isCJK c = true)
    (hbrand : ∀ b ∈ extractorBrands, pyStartsWith x b = false) :
    extract_model x = x := by
  by_cases hx : x = ""
  · subst hx; rfl
  · have hm : stripS x = x := by
      show (⟨pyStrip x.data⟩ : String) = x
      rw [pyStrip_of_forall_cjk hcjk]
    rw [extract_model, if_neg hx]
    simp only [hm]
    rw [if_neg hx]
    have h1 : pyStartsWith x "格力" = false := hbrand _ (by decide)
    have h2 : pyStartsWith x "美的空调" = false := hbrand _ (by decide)
    by_cases hv : has_version_suffix x = true
    · have hsub : ∀ b ∈ version_common_brands, pyStartsWith x b = false := by
        intro b hb
        fin_cases hb <;> exact hbrand _ (by decide)
      rw [if_pos hv, extract_with_version_suffix, if_neg (by simp [h1]),
        if_neg (by simp [h2]), stripFirstBrand_none hsub]
    · have hsub : ∀ b ∈ common_brands, pyStartsWith x b = false := by
        intro b hb
        fin_cases hb <;> exact hbrand _ (by decide)
      rw [if_neg hv, if_neg (by simp [h1]), if_neg (by simp [h2]),
        stripFirstBrand_none hsub]
      show (if pyStartsWith x "RF" = true then x else extract_generic x) = x
      rw [if_neg (by simp [startsWith_RF_false hx hcjk])]
      rw [extract_generic, firstNonCJKIdx_of_forall hcjk]

/-- Witness for the amended C7 at the all-CJK, brand-free input
`空调器`. -/
theorem extract_model_allCJK_id_witness :
    (∀ c ∈ ("空调器" : String).data, isCJK c = true) ∧
    extract_model "空调器" = "空调器" :=
  ⟨by decide, extract_model_allCJK_id "空调器" (by decide) (by decide)⟩

/-- `str.strip()` output is an infix of its input. -/
theorem pyStrip_isInfix (l : List Char) : pyStrip l <:+: l := by
  have h0 : ((l.dropWhile pyWS).reverse.dropWhile pyWS) <:+ (l.dropWhile pyWS).reverse :=
    List.dropWhile_suffix _
  have h1 : pyStrip l <+: l.dropWhile pyWS := by
    have h2 := (List.reverse_prefix).mpr h0
    rw [List.reverse_reverse] at h2
    exact h2
  exact h1.isInfix.trans (List.dropWhile_suffix pyWS).isInfix

/-- `str.strip()` is idempotent. -/
theorem pyStrip_idem (l : List Char) : pyStrip (pyStrip l) = pyStrip l := by
  have hL : (pyStrip l).dropWhile pyWS = pyStrip l := by
    cases hX : l.dropWhile pyWS with
    | nil =>
      have he : pyStrip l = [] := by rw [pyStrip, hX]; rfl
      rw [he]; rfl
    | cons c t =>
      have hne : l.dropWhile pyWS ≠ [] := by rw [hX]; exact List.cons_ne_nil c t
      have hc : pyWS c = false := by
        have hh := List.head_dropWhile_not pyWS l hne
        rwa [show (l.dropWhile pyWS).head hne = c by simp only [hX, List.head_cons]] at hh
      have h0 : ((c :: t).reverse.dropWhile pyWS) <:+ (c :: t).reverse :=
        List.dropWhile_suffix _
      have h2 := (List.reverse_prefix).mpr h0
      rw [List.reverse_reverse] at h2
      have hps : pyStrip l = ((c :: t).reverse.dropWhile pyWS).reverse := by
        rw [pyStrip, hX]
      rw [hps]
      rcases (List.prefix_cons_iff).mp h2 with he | ⟨l2, he, _⟩
      · rw [he]; rfl
      · rw [he, List.dropWhile_cons, hc]; simp
  have hrev : (pyStrip l).reverse = (l.dropWhile pyWS).reverse.dropWhile pyWS := by
    rw [pyStrip, List.reverse_reverse]
  rw [pyStrip, hL, hrev, List.dropWhile_idempotent pyWS _, ← hrev, List.reverse_reverse]

/-- `containsSub` is the infix relation. -/
theorem containsSub_isInfix (n h : List Char) : containsSub n h = true ↔ n <:+: h := by
  induction h with
  | nil =>
    simp only [containsSub, List.isEmpty_iff, List.infix_nil]
  | cons c t ih =>
    simp only [containsSub, Bool.or_eq_true, List.isPrefixOf_iff_prefix, ih,
      List.infix_cons_iff]

/-- `model[n:].strip()` is stripped. -/
theorem stripDropS_stripped (m : String) (n : Nat) :
    pyStrip (stripDropS m n).data = (stripDropS m n).data := pyStrip_idem _

/-- `model[n:].strip()` is an infix of the model. -/
theorem stripDropS_isInfix (m : String) (n : Nat) :
    (stripDropS m n).data <:+: m.data :=
  (pyStrip_isInfix _).trans (List.drop_suffix n m.data).isInfix

/-- A successful brand-prefix strip returns a stripped string. -/
theorem stripFirstBrand_stripped {m : String} {bs : List String} {r : String}
    (h : stripFirstBrand m bs = some r) : pyStrip r.data = r.data := by
  induction bs with
  | nil => exact absurd h (by simp [stripFirstBrand])
  | cons b t ih =>
    rw [stripFirstBrand] at h
    split at h
    · simp only [Option.some.injEq] at h
      subst h
      exact pyStrip_idem _
    · exact ih h

/-- A successful brand-prefix strip returns an infix of the model. -/
theorem stripFirstBrand_isInfix {m : String} {bs : List String} {r : String}
    (h : stripFirstBrand m bs = some r) : r.data <:+: m.data := by
  induction bs with
  | nil => exact absurd h (by simp [stripFirstBrand])
  | cons b t ih =>
    rw [stripFirstBrand] at h
    split at h
    · simp only [Option.some.injEq] at h
      subst h
      exact stripDropS_isInfix m _
    · exact ih h

/-- `_extract_generic` returns an infix of its input. -/
theorem extract_generic_isInfix (m : String) : (extract_generic m).data <:+: m.data := by
  simp only [extract_generic]
  split
  · exact List.infix_refl _
  · split
    · exact List.infix_refl _
    · split
      · exact List.infix_refl _
      · refine (pyStrip_isInfix _).trans ?_
        exact ((List.take_prefix _ _).isInfix).trans (List.drop_suffix _ m.data).isInfix

/-- Every `extract_model` output is a stripped string. -/
theorem extract_model_stripped (x : String) :
    pyStrip (extract_model x).data = (extract_model x).data := by
  simp only [extract_model]
  split
  · rfl
  · split
    · rfl
    · split
      · rw [extract_with_version_suffix]
        split
        · exact pyStrip_idem _
        · split
          · exact pyStrip_idem _
          · split
            · next r heq => exact stripFirstBrand_stripped heq
            · exact pyStrip_idem x.data
      · split
        · exact pyStrip_idem _
        · split
          · exact pyStrip_idem _
          · split
            · next r heq => exact stripFirstBrand_stripped heq
            · split
              · exact pyStrip_idem x.data
              · simp only [extract_generic]
                split
                · exact pyStrip_idem x.data
                · split
                  · exact pyStrip_idem x.data
                  · split
                    · exact pyStrip_idem x.data
                    · exact pyStrip_idem _

/-- Every `extract_model` output is an infix of the input. -/
theorem extract_model_isInfix (x : String) : (extract_model x).data <:+: x.data := by
  have hstr : (stripS x).data <:+: x.data := pyStrip_isInfix x.data
  simp only [extract_model]
  split
  · exact ⟨[], x.data, by simp⟩
  · split
    · exact ⟨[], x.data, by simp⟩
    · split
      · rw [extract_with_version_suffix]
        split
        · exact (stripDropS_isInfix _ _).trans hstr
        · split
          · exact (stripDropS_isInfix _ _).trans hstr
          · split
            · next r heq => exact (stripFirstBrand_isInfix heq).trans hstr
            · exact hstr
      · split
        · exact (stripDropS_isInfix _ _).trans hstr
        · split
          · exact (stripDropS_isInfix _ _).trans hstr
          · split
            · next r heq => exact (stripFirstBrand_isInfix heq).trans hstr
            · split
              · exact hstr
              · exact (extract_generic_isInfix _).trans hstr

/-- The head of the list is not a CJK ideograph (vacuously true for the
empty list). -/
def headNonCJK : List Char → Bool
  | [] => true
  | c :: _ => !is_chinese c

/-- Shape on which the generic rule is a projection: the string is
entirely CJK, or neither its first nor its last character is CJK. -/
def stableShapeB (l : List Char) : Bool :=
  l.all is_chinese || (headNonCJK l && headNonCJK l.reverse)

/-- A stripped, brand-free string of stable shape is a fixed point of
`extract_model`. -/
theorem extract_model_fixpoint (z : String)
    (hstrip : pyStrip z.data = z.data)
    (hbrand : ∀ b ∈ extractorBrands, pyStartsWith z b = false)
    (hshape : stableShapeB z.data = true) :
    extract_model z = z := by
  by_cases hz : z = ""
  · subst hz; rfl
  · have hm : stripS z = z := by
      show (⟨pyStrip z.data⟩ : String) = z
      rw [hstrip]
    rw [extract_model, if_neg hz]
    simp only [hm]
    rw [if_neg hz]
    have h1 : pyStartsWith z "格力" = false := hbrand _ (by decide)
    have h2 : pyStartsWith z "美的空调" = false := hbrand _ (by decide)
    have hsubv : ∀ b ∈ version_common_brands, pyStartsWith z b = false := by
      intro b hb
      fin_cases hb <;> exact hbrand _ (by decide)
    have hsubc : ∀ b ∈ common_brands, pyStartsWith z b = false := by
      intro b hb
      fin_cases hb <;> exact hbrand _ (by decide)
    by_cases hv : has_version_suffix z = true
    · rw [if_pos hv, extract_with_version_suffix, if_neg (by simp [h1]),
        if_neg (by simp [h2]), stripFirstBrand_none hsubv]
    · rw [if_neg hv, if_neg (by simp [h1]), if_neg (by simp [h2]),
        stripFirstBrand_none hsubc]
      show (if pyStartsWith z "RF" = true then z else extract_generic z) = z
      by_cases hrf : pyStartsWith z "RF" = true
      · rw [if_pos hrf]
      · rw [if_neg hrf]
        have hall := hshape
        rw [stableShapeB, Bool.or_eq_true] at hall
        rcases hall with hall | hshape2
        · rw [extract_generic,
            firstNonCJKIdx_of_forall (fun c hc => (List.all_eq_true.mp hall) c hc)]
        · have hzd : z.data ≠ [] := by
            intro hh
            apply hz
            cases z with
            | mk d => simp only at hh; subst hh; rfl
          simp only [Bool.and_eq_true] at hshape2
          rcases hshape2 with ⟨hh, hl⟩
          cases hd : z.data with
          | nil => exact absurd hd hzd
          | cons c t =>
            have hc : is_chinese c = false := by
              rw [hd, headNonCJK, Bool.not_eq_true'] at hh
              exact hh
            have hf1 : firstNonCJKIdx z.data = some 0 := by
              rw [hd, firstNonCJKIdx, hc]
              simp
            cases hrev : z.data.reverse with
            | nil =>
              exact absurd (by simpa using congrArg List.reverse hrev) hzd
            | cons c2 t2 =>
              have hc2 : is_chinese c2 = false := by
                rw [hrev, headNonCJK, Bool.not_eq_true'] at hl
                exact hl
              have hf2 : firstNonCJKIdx z.data.reverse = some 0 := by
                rw [hrev, firstNonCJKIdx, hc2]
                simp
              have hemp : z.data.isEmpty = false := by
                rw [hd]; rfl
              simp only [extract_generic, hf1, hf2, Nat.sub_zero, List.drop_zero,
                List.take_length, hemp, Bool.false_eq_true, if_false]
              show (⟨pyStrip z.data⟩ : String) = z
              rw [hstrip]

/-- Counterexample to C8 as stated: `中 文abc中` contains no recognized
brand (neither as a prefix nor as a substring), yet `extract_model` is
not idempotent on it — the first pass trims the slice `' 文abc'` to
`文abc`, whose reintroduced leading CJK run is trimmed again by the
second pass, giving `abc`. -/
theorem extract_model_idem_cex :
    (∀ b ∈ extractorBrands, pyIn b "中 文abc中" = false) ∧
    (∀ b ∈ extractorBrands, pyStartsWith "中 文abc中" b = false) ∧
    extract_model "中 文abc中" = "文abc" ∧
    extract_model (extract_model "中 文abc中") = "abc" ∧
    extract_model (extract_model "中 文abc中") ≠ extract_model "中 文abc中" := by
  decide

/-- C8 (amended): `extract_model` is idempotent on its output for every
input that contains no recognized brand and whose first normalization
has stable shape (entirely CJK, or not CJK at either end — interior
whitespace inside the kept slice can otherwise re-expose a CJK run,
as the counterexample shows). -/
theorem extract_model_idem_amended (x : String)
    (hbrand : ∀ b ∈ extractorBrands, pyIn b x = false)
    (hshape : stableShapeB (extract_model x).data = true) :
    extract_model (extract_model x) = extract_model x := by
  apply extract_model_fixpoint
  · exact extract_model_stripped x
  · intro b hb
    cases hp : pyStartsWith (extract_model x) b
    · rfl
    · exfalso
      have hpre : b.data <+: (extract_model x).data := (List.isPrefixOf_iff_prefix).mp hp
      have hinf : b.data <:+: x.data := hpre.isInfix.trans (extract_model_isInfix x)
      have hpos : pyIn b x = true := (containsSub_isInfix _ _).mpr hinf
      rw [hbrand b hb] at hpos
      exact Bool.false_ne_true hpos
  · exact hshape

/-- Witness for the amended C8 at the brand-free input `中KFR-35中`,
whose normalization `KFR-35` has stable shape. -/
theorem extract_model_idem_amended_witness :
    (∀ b ∈ extractorBrands, pyIn b "中KFR-35中" = false) ∧
    stableShapeB (extract_model "中KFR-35中").data = true ∧
    extract_model (extract_model "中KFR-35中") = extract_model "中KFR-35中" :=
  ⟨by decide, by decide,
    extract_model_idem_amended "中KFR-35中" (by decide) (by decide)⟩

/-! ## AntiCrawlerHandler: level extraction and deduplication
(src/anti_crawler.py) -/

/-- One raw record of the remote registry's `list` field, with the keys
`AntiCrawlerHandler.extract_energy_levels` reads (a missing or `None`
value is modelled as `""`, which is equally falsy). -/
structure RawRecord where
  productModel : String
  nxLever : String
  producerName : String
  registrationNumber : String
  productType : String
  announcementTime : String
deriving DecidableEq

/-- A candidate record as built by `extract_energy_levels`. -/
structure Candidate where
  model : String
  energy_level : String
  producer : String
  record_number : String
  product_type : String
  announcement_time : String
deriving DecidableEq

/-- The `level_map` of `extract_energy_levels` (digit to CJK grade;
unmapped values pass through unchanged). -/
def level_map_ac : List (String × String) :=
  [("1", "一级"), ("2", "二级"), ("3", "三级"), ("4", "四级"), ("5", "五级")]

/-- The record translation of `extract_energy_levels`' loop body. -/
def toCandidate (r : RawRecord) : Candidate :=
  { model := r.productModel,
    energy_level := (List.lookup r.nxLever level_map_ac).getD r.nxLever,
    producer := r.producerName,
    record_number := r.registrationNumber,
    product_type := r.productType,
    announcement_time := r.announcementTime }

/-- Lexicographic code-point comparison, i.e. Python `<` on `str`. -/
def strLtB : List Char → List Char → Bool
  | [], [] => false
  | [], _ :: _ => true
  | _ :: _, [] => false
  | a :: as, b :: bs => a.toNat < b.toNat || (a == b && strLtB as bs)

/-- `AntiCrawlerHandler._compare_time_strings`. -/
def compare_time_strings (t1 t2 : String) : Int :=
  if t1 = "" ∧ t2 = "" then 0
  else if t1 = "" then -1
  else if t2 = "" then 1
  else if strLtB t2.data t1.data then 1
  else if strLtB t1.data t2.data then -1
  else 0

/-- `AntiCrawlerHandler._get_latest_record`: fold over the rest of a
group, keeping the record with the strictly latest announcement time
(first record wins ties). -/
def get_latest (c : Candidate) (rest : List Candidate) : Candidate :=
  rest.foldl
    (fun latest r =>
      if compare_time_strings r.announcement_time latest.announcement_time > 0 then r
      else latest) c

/-- The per-group selection of `_filter_latest_records`: the group of a
model key is the sublist of records carrying it (in order), a singleton
group passes through, a larger group keeps the latest record. -/
def pickGroup (records : List Candidate) (m : String) : Option Candidate :=
  match records.filter (fun r => r.model == m) with
  | [] => none
  | c :: rest => some (if rest.isEmpty then c else get_latest c rest)

/-- Keys of a Python dict built by insertion: first-occurrence order. -/
def keysAcc (seen : List String) : List String → List String
  | [] => []
  | m :: ms => if seen.contains m then keysAcc seen ms else m :: keysAcc (m :: seen) ms

/-- The insertion-ordered model keys of `model_groups`. -/
def groupKeys (records : List Candidate) : List String :=
  keysAcc [] (records.map (fun r => r.model))

/-- `AntiCrawlerHandler._filter_latest_records`. -/
def filter_latest_records (records : List Candidate) : List Candidate :=
  (groupKeys records).filterMap (pickGroup records)

/-- `AntiCrawlerHandler.extract_energy_levels`: keep the records whose
`nxLever` is truthy, translate them, then deduplicate by model. -/
def extract_energy_levels (searchList : List RawRecord) : List Candidate :=
  filter_latest_records ((searchList.filter (fun r => r.nxLever != "")).map toCandidate)

/-- The latest-record fold returns a member of the group. -/
theorem get_latest_mem (c : Candidate) (rest : List Candidate) :
    get_latest c rest ∈ c :: rest := by
  rw [get_latest]
  induction rest generalizing c with
  | nil => exact List.mem_cons_self c []
  | cons r rs ih =>
    rw [List.foldl_cons]
    have h2 := ih
      (if compare_time_strings r.announcement_time c.announcement_time > 0 then r else c)
    rcases List.mem_cons.mp h2 with he | hm
    · rw [he]
      split
      · exact List.mem_cons_of_mem _ (List.mem_cons_self r rs)
      · exact List.mem_cons_self c _
    · exact List.mem_cons_of_mem c (List.mem_cons_of_mem r hm)

/-- The candidate chosen for a model key carries that key. -/
theorem pickGroup_model {records : List Candidate} {m : String} {c : Candidate}
    (h : pickGroup records m = some c) : c.model = m := by
  rw [pickGroup] at h
  cases hf : records.filter (fun r => r.model == m) with
  | nil => rw [hf] at h; exact absurd h (by simp)
  | cons c0 rest =>
    rw [hf] at h
    simp only [Option.some.injEq] at h
    subst h
    have hmem : (if rest.isEmpty then c0 else get_latest c0 rest) ∈ c0 :: rest := by
      split
      · exact List.mem_cons_self _ _
      · exact get_latest_mem c0 rest
    have hmem2 : (if rest.isEmpty then c0 else get_latest c0 rest) ∈
        records.filter (fun r => r.model == m) := hf ▸ hmem
    have hpred := List.of_mem_filter hmem2
    simpa using hpred

/-- Keys of the insertion dict come from the key list. -/
theorem keysAcc_sub : ∀ (ms : List String) (seen : List String) (k : String),
    k ∈ keysAcc seen ms → k ∈ ms := by
  intro ms
  induction ms with
  | nil => intro seen k h; exact absurd h (List.not_mem_nil k)
  | cons m t ih =>
    intro seen k h
    rw [keysAcc] at h
    split at h
    · exact List.mem_cons_of_mem m (ih _ k h)
    · rcases List.mem_cons.mp h with he | hm
      · rw [he]; exact List.mem_cons_self m t
      · exact List.mem_cons_of_mem m (ih _ k hm)

/-- A key already seen is never emitted again. -/
theorem keysAcc_not_mem_of_seen : ∀ (ms : List String) (seen : List String) (k : String),
    k ∈ seen → k ∉ keysAcc seen ms := by
  intro ms
  induction ms with
  | nil => intro seen k _ h; exact List.not_mem_nil k h
  | cons m t ih =>
    intro seen k hk h
    rw [keysAcc] at h
    split at h
    · exact ih _ k hk h
    · next hnot =>
      rcases List.mem_cons.mp h with he | hm
      · subst he
        exact hnot (by simpa using hk)
      · exact ih (m :: seen) k (List.mem_cons_of_mem m hk) hm

/-- The emitted keys contain no duplicates. -/
theorem keysAcc_nodup : ∀ (ms : List String) (seen : List String), (keysAcc seen ms).Nodup := by
  intro ms
  induction ms with
  | nil => intro seen; exact List.nodup_nil
  | cons m t ih =>
    intro seen
    rw [keysAcc]
    split
    · exact ih seen
    · exact List.Nodup.cons
        (keysAcc_not_mem_of_seen t (m :: seen) m (List.mem_cons_self m seen)) (ih (m :: seen))

/-- The emitted keys never outnumber the inputs. -/
theorem keysAcc_length : ∀ (ms : List String) (seen : List String),
    (keysAcc seen ms).length ≤ ms.length := by
  intro ms
  induction ms with
  | nil => intro seen; exact Nat.le_refl 0
  | cons m t ih =>
    intro seen
    rw [keysAcc]
    split
    · exact Nat.le_succ_of_le (ih seen)
    · simpa using Nat.succ_le_succ (ih (m :: seen))

/-- Every group key has a non-empty group. -/
theorem groupKeys_filter_ne_nil {records : List Candidate} {k : String}
    (h : k ∈ groupKeys records) : records.filter (fun r => r.model == k) ≠ [] := by
  have hk : k ∈ records.map (fun r => r.model) := keysAcc_sub _ [] k h
  rcases List.mem_map.mp hk with ⟨r, hr, hrm⟩
  intro hnil
  have hmem : r ∈ records.filter (fun r => r.model == k) :=
    List.mem_filter.mpr ⟨hr, by simp [hrm]⟩
  rw [hnil] at hmem
  exact List.not_mem_nil r hmem

/-- Every group key yields exactly one candidate, carrying that key. -/
theorem pickGroup_isSome {records : List Candidate} {k : String}
    (h : k ∈ groupKeys records) :
    ∃ c, pickGroup records k = some c ∧ c.model = k := by
  rw [pickGroup]
  cases hf : records.filter (fun r => r.model == k) with
  | nil => exact absurd hf (groupKeys_filter_ne_nil h)
  | cons c0 rest =>
    refine ⟨_, rfl, @pickGroup_model records k _ ?_⟩
    rw [pickGroup, hf]

/-- Collecting one candidate per key reproduces the key list. -/
theorem filterMap_keys_models (records : List Candidate) :
    ∀ ks : List String, (∀ k ∈ ks, ∃ c, pickGroup records k = some c ∧ c.model = k) →
      ((ks.filterMap (pickGroup records)).map (fun c => c.model)) = ks := by
  intro ks
  induction ks with
  | nil => intro _; rfl
  | cons k t ih =>
    intro hk
    obtain ⟨c, hc, hcm⟩ := hk k (List.mem_cons_self k t)
    simp only [List.filterMap_cons, hc, List.map_cons]
    rw [hcm, ih (fun k2 hk2 => hk k2 (List.mem_cons_of_mem _ hk2))]

/-- Counterexample to C5 as stated: a raw record whose `nxLever` is
empty (or `None`) is dropped before grouping, so its model group yields
zero candidates even though the model occurs in the input. -/
theorem extract_energy_levels_cex :
    extract_energy_levels
      [{ productModel := "X", nxLever := "", producerName := "",
         registrationNumber := "", productType := "", announcementTime := "" }] = [] ∧
    ([({ productModel := "X", nxLever := "", producerName := "",
         registrationNumber := "", productType := "", announcementTime := "" } :
        RawRecord)].map (fun r => r.productModel)) = ["X"] := by
  decide

/-- C5 (amended): deduplication yields exactly one candidate per
distinct model value among the records whose raw level is non-empty
(records with an empty or missing level are dropped before grouping):
the output model list is exactly the first-occurrence deduplication of
the kept records' models, has no duplicates, and the output never has
more records than the input. -/
theorem extract_energy_levels_dedup (searchList : List RawRecord) :
    ((extract_energy_levels searchList).map (fun c => c.model)) =
      keysAcc [] ((searchList.filter (fun r => r.nxLever != "")).map
        (fun r => r.productModel)) ∧
    ((extract_energy_levels searchList).map (fun c => c.model)).Nodup ∧
    (extract_energy_levels searchList).length ≤ searchList.length := by
  have hmain : ((extract_energy_levels searchList).map (fun c => c.model)) =
      keysAcc [] ((searchList.filter (fun r => r.nxLever != "")).map
        (fun r => r.productModel)) := by
    rw [extract_energy_levels, filter_latest_records]
    rw [filterMap_keys_models _ _ (fun k hk => pickGroup_isSome hk)]
    rw [groupKeys, List.map_map]
    rfl
  refine ⟨hmain, ?_, ?_⟩
  · rw [hmain]
    exact keysAcc_nodup _ []
  · have h1 : (extract_energy_levels searchList).length =
        ((extract_energy_levels searchList).map (fun c => c.model)).length :=
      (List.length_map _ _).symm
    rw [h1, hmain]
    calc (keysAcc [] ((searchList.filter (fun r => r.nxLever != "")).map
          (fun r => r.productModel))).length
        ≤ ((searchList.filter (fun r => r.nxLever != "")).map
          (fun r => r.productModel)).length := keysAcc_length _ []
      _ = (searchList.filter (fun r => r.nxLever != "")).length := List.length_map _ _
      _ ≤ searchList.length := List.length_filter_le _ _

/-! ## ResultComparator: brand extraction, similarity, power spec and
the candidate scorer (src/result_comparator.py) -/

/-- The `priority_brands` list of
`ResultComparator.extract_brand_from_model`, in source order. -/
def rcPriorityBrands : List String :=
  ["格力", "奥克斯", "美的", "TCL",
   "海尔", "志高", "海信", "长虹", "科龙", "容声",
   "春兰", "新科", "华凌", "小天鹅", "统帅", "卡萨帝", "美菱",
   "创维", "康佳", "夏普", "松下", "三菱", "大金", "日立", "东芝",
   "LG", "SAMSUNG", "三星", "SONY", "索尼", "PHILIPS", "飞利浦",
   "SIEMENS", "西门子", "BOSCH", "博世", "WHIRLPOOL", "惠而浦",
   "约克", "YORK", "开利", "CARRIER", "特灵", "TRANE", "麦克维尔",
   "顿汉布什", "克莱门特", "盾安", "申菱", "欧科", "天加"]

/-- `re.search` scanning: try the position matcher at every start
position, leftmost success wins. -/
def searchPos (f : List Char → Option (List Char)) : List Char → Option (List Char)
  | [] => f []
  | c :: t =>
    match f (c :: t) with
    | some g => some g
    | none => searchPos f t

/-- The company-name suffix alternation of the first company pattern. -/
def csSuffixes : List String :=
  ["电器", "空调", "制冷", "科技", "实业", "集团", "有限公司", "股份", "公司"]

/-- Backtracking of the greedy `[一-鿿]+` group: try the group length
from the full CJK run down to 1, succeeding when a company suffix
follows. -/
def p1Back (l : List Char) : Nat → Option (List Char)
  | 0 => none
  | j + 1 =>
    if csSuffixes.any (fun s => s.data.isPrefixOf (l.drop (j + 1))) then some (l.take (j + 1))
    else p1Back l j

/-- Position matcher for `([一-鿿]+)(?:电器|空调|制冷|科技|实业|集团|有限公司|股份|公司)`. -/
def p1At (l : List Char) : Option (List Char) :=
  p1Back l (l.takeWhile is_chinese).length

/-- ASCII upper-case letter. -/
def isUpperAscii (c : Char) : Bool := 'A' ≤ c && c ≤ 'Z'

/-- ASCII lower-case letter. -/
def isLowerAscii (c : Char) : Bool := 'a' ≤ c && c ≤ 'z'

/-- The English company keywords of the second company pattern. -/
def engKeywords : List String :=
  ["Electric", "Electronics", "Technology", "Corp", "Ltd", "Inc"]

/-- Position matcher for
`([A-Z][a-z]+)(?:\s+(?:Electric|Electronics|Technology|Corp|Ltd|Inc))`
(the greedy runs are forced: lower-case letters, whitespace and the
keyword initials are pairwise disjoint character classes). -/
def p2At : List Char → Option (List Char)
  | [] => none
  | c :: rest =>
    if isUpperAscii c then
      let low := rest.takeWhile isLowerAscii
      if low.isEmpty then none
      else
        let after := rest.drop low.length
        let ws := after.takeWhile pyWS
        if ws.isEmpty then none
        else if engKeywords.any (fun k => k.data.isPrefixOf (after.drop ws.length)) then
          some (c :: low)
        else none
    else none

/-- Position matcher for `([一-鿿]{2,4})(?:[一-鿿]*电器)`: the greedy
group tries length 4, 3, 2 within the CJK run; the rest of the pattern
matches when `电器` occurs in the run at or after the group end. -/
def p3At (l : List Char) : Option (List Char) :=
  let r := (l.takeWhile is_chinese).length
  let tryK := fun (k : Nat) =>
    if k ≤ r && containsSub ['电', '器'] ((l.take r).drop k) then some (l.take k) else none
  match tryK 4 with
  | some g => some g
  | none =>
    match tryK 3 with
    | some g => some g
    | none => tryK 2

/-- The over-generic words filtered out of a company-pattern group. -/
def genericCompanyWords : List String := ["有限", "股份", "电器", "空调", "制冷", "科技"]

/-- The company-pattern loop of `extract_brand_from_model` (step 2):
each pattern in turn, skipping a match whose group is a generic word. -/
def companyPatternExtract (d : List Char) : Option String :=
  let filt : Option (List Char) → Option String := fun o =>
    match o with
    | some g => if (⟨g⟩ : String) ∈ genericCompanyWords then none else some ⟨g⟩
    | none => none
  match filt (searchPos p1At d) with
  | some s => some s
  | none =>
    match filt (searchPos p2At d) with
    | some s => some s
    | none => filt (searchPos p3At d)

/-- The model prefixes excluded from the English-prefix heuristic. -/
def modelPrefixExclusions : List String := ["KFR", "KF", "RF", "GR", "BCD", "XQG"]

/-- `re.match(r'^([A-Z][A-Za-z]+)', ...)`. -/
def englishPrefixAt : List Char → Option (List Char)
  | [] => none
  | c :: rest =>
    if isUpperAscii c then
      let letters := rest.takeWhile (fun ch => isUpperAscii ch || isLowerAscii ch)
      if letters.isEmpty then none else some (c :: letters)
    else none

/-- `ResultComparator.extract_brand_from_model`: priority-list
containment, then company-name patterns, then the CJK-prefix heuristic
(2 to 4 characters), then the English-prefix heuristic minus the known
model prefixes. -/
def extract_brand_from_model (model : String) : String :=
  if model = "" then ""
  else
    let mc := stripS model
    let step1 := findContainedBrand mc rcPriorityBrands
    if step1 ≠ "" then step1
    else
      match companyPatternExtract mc.data with
      | some g => g
      | none =>
        let cp := mc.data.takeWhile is_chinese
        if !cp.isEmpty then
          if 2 ≤ cp.length ∧ cp.length ≤ 4 then (⟨cp⟩ : String) else ""
        else
          match englishPrefixAt mc.data with
          | some p => if (⟨p⟩ : String) ∈ modelPrefixExclusions then "" else ⟨p⟩
          | none => ""

/-- `ResultComparator.calculate_similarity_score`: 0 on an empty side,
otherwise the `SequenceMatcher` ratio of the lower-cased strings
(`ratio` is the `difflib` collaborator). -/
def calculate_similarity_score (ratio : String → String → ℚ) (m1 m2 : String) : ℚ :=
  if m1 = "" ∨ m2 = "" then 0 else ratio (lowerS m1) (lowerS m2)

/-- `ResultComparator.brands_similar`: case-insensitive equality, the
static alias table, containment, or similarity above `0.8`. -/
def brands_similar (ratio : String → String → ℚ) (brand1 brand2 : String) : Bool :=
  if brand1 = "" ∨ brand2 = "" then false
  else
    let b1l := lowerS brand1
    let b2l := lowerS brand2
    if b1l = b2l then true
    else if brand_aliases.any (fun p =>
        let fam := lowerS p.1 :: p.2.map lowerS
        fam.contains b1l && fam.contains b2l) then true
    else if containsSub b1l.data b2l.data || containsSub b2l.data b1l.data then true
    else decide (calculate_similarity_score ratio brand1 brand2 > (4 : ℚ) / 5)

/-- Position matcher for `KFR?-(\d+)GW` (on the lower-cased string). -/
def powAt1 : List Char → Option (List Char)
  | c1 :: c2 :: rest =>
    if c1 = 'k' ∧ c2 = 'f' then
      let rest2 := if rest.head? == some 'r' then rest.tail else rest
      match rest2 with
      | '-' :: rest3 =>
        let ds := rest3.takeWhile Char.isDigit
        if ds.isEmpty then none
        else
          match rest3.drop ds.length with
          | 'g' :: 'w' :: _ => some ds
          | _ => none
      | _ => none
    else none
  | _ => none

/-- Position matcher for `(\d+)GW` (on the lower-cased string). -/
def powAt2 (l : List Char) : Option (List Char) :=
  let ds := l.takeWhile Char.isDigit
  if ds.isEmpty then none
  else
    match l.drop ds.length with
    | 'g' :: 'w' :: _ => some ds
    | _ => none

/-- Position matcher for `KFR?-(\d+)` (on the lower-cased string). -/
def powAt3 : List Char → Option (List Char)
  | c1 :: c2 :: rest =>
    if c1 = 'k' ∧ c2 = 'f' then
      let rest2 := if rest.head? == some 'r' then rest.tail else rest
      match rest2 with
      | '-' :: rest3 =>
        let ds := rest3.takeWhile Char.isDigit
        if ds.isEmpty then none else some ds
      | _ => none
    else none
  | _ => none

/-- `ResultComparator.extract_power_spec`: the three patterns in order,
case-insensitively (digit groups are case-invariant, so matching on the
lower-cased string is exact). -/
def extract_power_spec (m : String) : String :=
  let low := m.data.map Char.toLower
  match searchPos powAt1 low with
  | some g => ⟨g⟩
  | none =>
    match searchPos powAt2 low with
    | some g => ⟨g⟩
    | none =>
      match searchPos powAt3 low with
      | some g => ⟨g⟩
      | none => ""

/-- `ResultComparator.score_match`: exact-match short-circuits, then a
similarity base plus containment, brand, series, power-spec and
completeness bonuses, capped at 100. -/
def score_match (ratio : String → String → ℚ) (original_model extracted_model : String)
    (candidate : Candidate) : ℚ :=
  if candidate.model = original_model then 100
  else if candidate.model = extracted_model then 95
  else
    let simO := calculate_similarity_score ratio original_model candidate.model
    let simE := calculate_similarity_score ratio extracted_model candidate.model
    let original_brand := extract_brand_from_model original_model
    let cbProd := extract_brand_from_model candidate.producer
    let cbModel := extract_brand_from_model candidate.model
    let candidate_brand := if cbProd ≠ "" then cbProd else cbModel
    min
      (max simO simE * 90 +
        (if pyIn candidate.model original_model || pyIn original_model candidate.model
          then 10 else 0) +
        (if pyIn candidate.model extracted_model || pyIn extracted_model candidate.model
          then 8 else 0) +
        (if original_brand ≠ "" ∧ candidate_brand ≠ "" then
          (if original_brand = "格力" ∧
              brands_similar ratio original_brand candidate_brand = true then 20
           else if (original_brand = "奥克斯" ∨ original_brand = "美的" ∨
              original_brand = "TCL") ∧
              brands_similar ratio original_brand candidate_brand = true then 18
           else if original_brand = candidate_brand then 15
           else if brands_similar ratio original_brand candidate_brand = true then 12
           else 0)
         else if original_brand = "" ∧ candidate_brand ≠ "" then 3 else 0) +
        (if pyIn "KFR" original_model && pyIn "KFR" candidate.model then 8 else 0) +
        (if extract_power_spec original_model ≠ "" ∧
            extract_power_spec candidate.model ≠ "" ∧
            extract_power_spec original_model = extract_power_spec candidate.model
          then 12 else 0) +
        (if candidate.energy_level ≠ "" then 2 else 0) +
        (if candidate.producer ≠ "" then 2 else 0) +
        (if candidate.record_number ≠ "" then 1 else 0))
      100

/-- C6: `score_match` is bounded — for every original and canonical
identifier and every candidate, the score lies in `[0, 100]` (given the
`difflib` ratio contract that similarities lie in `[0, 1]`). -/
theorem score_match_bounded (ratio : String → String → ℚ)
    (hr : ∀ a b, 0 ≤ ratio a b ∧ ratio a b ≤ 1)
    (original_model extracted_model : String) (c : Candidate) :
    0 ≤ score_match ratio original_model extracted_model c ∧
    score_match ratio original_model extracted_model c ≤ 100 := by
  have hcs : ∀ a b, 0 ≤ calculate_similarity_score ratio a b := by
    intro a b
    rw [calculate_similarity_score]
    split
    · norm_num
    · exact (hr _ _).1
  constructor
  · simp only [score_match]
    split
    · norm_num
    · split
      · norm_num
      · apply le_min ?_ (by norm_num)
        repeat' apply add_nonneg
        · exact mul_nonneg (le_trans (hcs _ _) (le_max_left _ _)) (by norm_num)
        all_goals repeat' split
        all_goals norm_num
  · simp only [score_match]
    split
    · norm_num
    · split
      · norm_num
      · exact min_le_right _ _

/-- Witness for C6 at a constant-zero ratio and a concrete
brand-bearing candidate. -/
theorem score_match_bounded_witness :
    0 ≤ score_match (fun _ _ => 0) "格力KFR-35GW" "KFR-35GW"
      { model := "KFR-35GW/FNhAa-B1", energy_level := "一级",
        producer := "珠海格力电器股份有限公司", record_number := "2020-123",
        product_type := "空调", announcement_time := "2021-01-01" } ∧
    score_match (fun _ _ => 0) "格力KFR-35GW" "KFR-35GW"
      { model := "KFR-35GW/FNhAa-B1", energy_level := "一级",
        producer := "珠海格力电器股份有限公司", record_number := "2020-123",
        product_type := "空调", announcement_time := "2021-01-01" } ≤ 100 :=
  score_match_bounded (fun _ _ => 0)
    (fun _ _ => ⟨le_refl 0, by norm_num⟩) _ _ _

/-- The search-result dict consumed by
`ResultComparator.find_best_match` (`search_success`, `energy_levels`,
`extracted_model`). -/
structure SearchRes where
  search_success : Bool
  energy_levels : List Candidate
  extracted_model : String
deriving DecidableEq

/-- Descending order on scored candidates, as produced by
`scored_candidates.sort(key=..., reverse=True)`. -/
def scoreDesc : ℚ × Candidate → ℚ × Candidate → Prop := fun a b => b.1 ≤ a.1

instance : DecidableRel scoreDesc := fun a b => inferInstanceAs (Decidable (b.1 ≤ a.1))

/-- `ResultComparator.find_best_match`, returning the chosen record
together with the low-confidence flag (the `best_score < 30` warning of
the multi-candidate branch; the single-candidate branch returns before
any score is computed, so its flag is `false`).  Python's sort is
stable, as is the insertion sort used here. -/
def find_best_match (ratio : String → String → ℚ) (search_result : SearchRes)
    (original_model : String) : Option Candidate × Bool :=
  if search_result.search_success = false ∨ search_result.energy_levels = [] then
    (none, false)
  else
    match search_result.energy_levels with
    | [] => (none, false)
    | [c] => (some c, false)
    | cs =>
      let scored := cs.map (fun cand =>
        (score_match ratio original_model search_result.extracted_model cand, cand))
      match scored.insertionSort scoreDesc with
      | [] => (none, false)
      | (s, best) :: _ => (some best, decide (s < 30))

/-- C10: a successful search result with exactly one candidate is
returned as the best match immediately, for every original identifier
and every similarity collaborator (so no match score is computed and the
below-30 low-confidence flag is never raised for single-candidate
results). -/
theorem find_best_match_single (ratio : String → String → ℚ)
    (sr : SearchRes) (c : Candidate) (original_model : String)
    (hs : sr.search_success = true) (hl : sr.energy_levels = [c]) :
    find_best_match ratio sr original_model = (some c, false) := by
  rw [find_best_match, if_neg (by simp [hs, hl]), hl]

/-- A concrete sole candidate for the C10 witness. -/
def soleCandidate : Candidate :=
  { model := "KFR-35GW", energy_level := "一级", producer := "",
    record_number := "", product_type := "", announcement_time := "" }

/-- Witness for C10 at a concrete one-candidate search result. -/
theorem find_best_match_single_witness :
    find_best_match (fun _ _ => 0)
      { search_success := true, energy_levels := [soleCandidate],
        extracted_model := "KFR-35GW" } "完全不相似的型号" =
      (some soleCandidate, false) :=
  find_best_match_single (fun _ _ => 0) _ _ _ rfl rfl

/-! ## FastBatchProcessor: per-query resolution and the concurrent batch
(src/fast_batch_processor.py) -/

/-- One submitted query: `(row_index, model, excel_energy_level)`. -/
structure Query where
  row_index : Nat
  model : String
  excel_level : String
deriving DecidableEq

/-- A placeholder query, used only as the out-of-range value of
`List.getD`. -/
def dummyQuery : Query := { row_index := 0, model := "", excel_level := "" }

/-- What the environment does to one query's processing: an exception
raised inside `_search_single_product`'s `try` block (all later pipeline
stages of the embedding are total, and an exception after
`search_success` is set still leaves the default `搜不到` verdict), an
exception surfacing from `future.result()` in `process_batch`, or the
value returned by `crawler.search_product` (`none` for a failed search,
otherwise the `list` field of the response). -/
inductive Outcome where
  | exn (msg : String)
  | taskFail (msg : String)
  | ret (r : Option (List RawRecord))
deriving DecidableEq

/-- The result dict as initialized at the top of
`_search_single_product`. -/
def baseResult (q : Query) : PResult :=
  { row_index := q.row_index, original_model := q.model,
    excel_energy_level := q.excel_level, search_success := false,
    validation_result := "搜不到", details := "" }

/-- The body of `_search_single_product` after the search call: empty or
missing record list means `搜索无结果`; otherwise extract the energy
levels, find the best match, compare and fill in the details. -/
def searchPath (ratio : String → String → ℚ) (q : Query)
    (r : Option (List RawRecord)) : PResult :=
  match r with
  | none => { baseResult q with details := "搜索无结果" }
  | some records =>
    if records.isEmpty then { baseResult q with details := "搜索无结果" }
    else
      let energy_levels := extract_energy_levels records
      if energy_levels.isEmpty then
        { baseResult q with
            search_success := true,
            details := "无法提取能效等级信息" }
      else
        let extracted := extract_model q.model
        match find_best_match ratio
            { search_success := true, energy_levels := energy_levels,
              extracted_model := extracted } q.model with
        | (none, _) =>
          { baseResult q with
              search_success := true,
              details := "在 " ++ toString energy_levels.length ++ " 条记录中未找到匹配" }
        | (some best, _) =>
          let sel := best.energy_level
          let vr := compare_energy_levels q.excel_level sel
          { row_index := q.row_index,
            original_model := q.model,
            excel_energy_level := q.excel_level,
            search_success := true,
            validation_result := vr,
            details :=
              if vr = "正确" then "匹配: " ++ best.model ++ " - " ++ sel
              else if vr = "错误" then
                "不匹配: Excel(" ++ q.excel_level ++ ") vs 搜索(" ++ sel ++ ")"
              else if vr = "Excel缺失" then
                "Excel缺失，网站显示: " ++ sel ++ " - " ++ best.model
              else "无法确定: " ++ best.model,
            search_energy_level := sel,
            matched_model := best.model,
            producer := best.producer }

/-- One collected result of the `as_completed` loop of `process_batch`:
a `_search_single_product` run (whose `except` clause turns an exception
into the default record with an error detail), or the `error_result`
built when `future.result()` itself raises. -/
def collectOne (ratio : String → String → ℚ) (q : Query) (o : Outcome) : PResult :=
  match o with
  | .taskFail msg => { baseResult q with details := "任务执行失败: " ++ msg }
  | .exn msg => { baseResult q with details := "处理出错: " ++ msg }
  | .ret r => searchPath ratio q r

/-- The sort key of `results.sort(key=lambda x: x['row_index'])`. -/
def rowLe : PResult → PResult → Prop := fun a b => a.row_index ≤ b.row_index

instance : DecidableRel rowLe := fun a b => inferInstanceAs (Decidable (a.row_index ≤ b.row_index))

instance : IsTotal PResult rowLe := ⟨fun a b => Nat.le_total a.row_index b.row_index⟩

instance : IsTrans PResult rowLe := ⟨fun _ _ _ => Nat.le_trans⟩

instance : IsAntisymm PResult (fun a b : PResult => a.row_index < b.row_index) :=
  ⟨fun _ _ h1 h2 => absurd h2 (Nat.lt_asymm h1)⟩

/-- `FastBatchProcessor.process_batch`: workers complete the submitted
queries in an arbitrary order (`completion_order`, a permutation of the
submissions that abstracts the worker count and interleaving); the
collected results are then sorted by the original row index (a stable
sort, like Python's). -/
def process_batch (ratio : String → String → ℚ) (env : Query → Outcome)
    (completion_order : List Query) : List PResult :=
  (completion_order.map (fun q => collectOne ratio q (env q))).insertionSort rowLe

/-- Every collected result keeps its query's row index. -/
theorem collectOne_row_index (ratio : String → String → ℚ) (q : Query) (o : Outcome) :
    (collectOne ratio q o).row_index = q.row_index := by
  cases o with
  | taskFail msg => rfl
  | exn msg => rfl
  | ret r =>
    show (searchPath ratio q r).row_index = q.row_index
    cases r with
    | none => rfl
    | some records =>
      simp only [searchPath]
      split
      · rfl
      · split
        · rfl
        · split
          · rfl
          · rfl

/-- The batch result under strictly increasing row indexes: sorting the
arbitrarily-ordered collection restores exactly the input order. -/
theorem process_batch_eq (ratio : String → String → ℚ) (env : Query → Outcome)
    (qs order : List Query) (hperm : List.Perm order qs)
    (hsorted : List.Pairwise (fun a b : Query => a.row_index < b.row_index) qs) :
    process_batch ratio env order = qs.map (fun q => collectOne ratio q (env q)) := by
  have hpermf : List.Perm (order.map (fun q => collectOne ratio q (env q)))
      (qs.map (fun q => collectOne ratio q (env q))) :=
    hperm.map (fun q => collectOne ratio q (env q))
  have hperm2 : List.Perm (process_batch ratio env order)
      (qs.map (fun q => collectOne ratio q (env q))) :=
    (List.perm_insertionSort rowLe _).trans hpermf
  have hsortq : List.Pairwise (fun a b : PResult => a.row_index < b.row_index)
      (qs.map (fun q => collectOne ratio q (env q))) := by
    rw [List.pairwise_map]
    refine hsorted.imp ?_
    intro a b h
    rw [collectOne_row_index, collectOne_row_index]
    exact h
  have hnodupq : ((qs.map (fun q => collectOne ratio q (env q))).map
      (fun r => r.row_index)).Nodup := by
    rw [List.map_map]
    show List.Pairwise _ _
    rw [List.pairwise_map]
    refine hsorted.imp ?_
    intro a b h
    simp only [Function.comp_apply, collectOne_row_index]
    exact Nat.ne_of_lt h
  have hnodup1 : ((process_batch ratio env order).map (fun r => r.row_index)).Nodup :=
    ((hperm2.map (fun r => r.row_index)).nodup_iff).mpr hnodupq
  have hsort1 : List.Sorted rowLe (process_batch ratio env order) :=
    List.sorted_insertionSort rowLe _
  have hne : List.Pairwise (fun a b : PResult => a.row_index ≠ b.row_index)
      (process_batch ratio env order) := by
    have h2 : List.Pairwise _ _ := hnodup1
    rwa [List.pairwise_map] at h2
  have hsort1lt : List.Pairwise (fun a b : PResult => a.row_index < b.row_index)
      (process_batch ratio env order) := by
    refine (List.Pairwise.and hsort1 hne).imp ?_
    intro a b h
    exact lt_of_le_of_ne h.1 h.2
  exact List.eq_of_perm_of_sorted hperm2 hsort1lt hsortq

/-- Appending to a non-empty string stays non-empty. -/
theorem append_left_ne_empty (s t : String) (hs : s ≠ "") : s ++ t ≠ "" := by
  intro h
  apply hs
  have hd : s.data ++ t.data = [] := by
    have h2 := congrArg String.data h
    rwa [String.data_append] at h2
  have hnil := (List.append_eq_nil.mp hd).1
  cases s with
  | mk d =>
    simp only at hnil
    subst hnil
    rfl

/-- C2: for every submitted query list with strictly increasing row
indexes and every completion order of the workers (any worker count ≥ 1
yields some such interleaving), `process_batch` returns exactly one
result per submitted query — the list of per-query results in submission
order — so the output has the input's length and ordering (ascending by
the original row index). -/
theorem process_batch_preserves_order (ratio : String → String → ℚ)
    (env : Query → Outcome) (qs order : List Query)
    (hperm : List.Perm order qs)
    (hsorted : List.Pairwise (fun a b : Query => a.row_index < b.row_index) qs) :
    (process_batch ratio env order).length = qs.length ∧
    process_batch ratio env order = qs.map (fun q => collectOne ratio q (env q)) := by
  have h := process_batch_eq ratio env qs order hperm hsorted
  exact ⟨by rw [h, List.length_map], h⟩

/-- First input query of the batch witnesses. -/
def qA : Query := { row_index := 0, model := "a", excel_level := "" }

/-- Second input query of the batch witnesses. -/
def qB : Query := { row_index := 1, model := "b", excel_level := "" }

/-- Witness for C2: two queries completed in reversed order under a
failing search still come back in submission order. -/
theorem process_batch_preserves_order_witness :
    (process_batch (fun _ _ => 0) (fun _ => Outcome.ret none) [qB, qA]).length =
      ([qA, qB] : List Query).length ∧
    process_batch (fun _ _ => 0) (fun _ => Outcome.ret none) [qB, qA] =
      ([qA, qB] : List Query).map
        (fun q => collectOne (fun _ _ => 0) q ((fun _ => Outcome.ret none) q)) :=
  process_batch_preserves_order (fun _ _ => 0) (fun _ => Outcome.ret none)
    [qA, qB] [qB, qA] (by decide) (by decide)

/-- The failures of C3: an exception inside the per-query pipeline, an
exception surfacing from the future, a failed search (`None`), or a
search with zero records. -/
def outcomeFails : Outcome → Bool
  | .exn _ => true
  | .taskFail _ => true
  | .ret none => true
  | .ret (some rs) => rs.isEmpty

/-- The batch result at position `i`. -/
def resAt (l : List PResult) (i : Nat) : PResult := l.getD i dummyResult

/-- C3: under strictly increasing row indexes, the result at position
`i` is exactly the per-query result of query `i`: if that query's search
fails (no records or an error) or its processing raises, the batch still
holds a result for it with verdict `搜不到` and a non-empty descriptive
detail; and the result is unchanged under any change of the environment
on the other queries (no failure elsewhere removes or alters it). -/
theorem process_batch_failure_isolation (ratio : String → String → ℚ)
    (env env2 : Query → Outcome) (qs order : List Query)
    (hperm : List.Perm order qs)
    (hsorted : List.Pairwise (fun a b : Query => a.row_index < b.row_index) qs)
    (i : Nat) (hi : i < qs.length)
    (hagree : env2 (qs.getD i dummyQuery) = env (qs.getD i dummyQuery)) :
    (outcomeFails (env (qs.getD i dummyQuery)) = true →
      (resAt (process_batch ratio env order) i).validation_result = "搜不到" ∧
      (resAt (process_batch ratio env order) i).details ≠ "") ∧
    resAt (process_batch ratio env2 order) i = resAt (process_batch ratio env order) i := by
  have key : ∀ e : Query → Outcome, resAt (process_batch ratio e order) i =
      collectOne ratio (qs.getD i dummyQuery) (e (qs.getD i dummyQuery)) := by
    intro e
    have he := process_batch_eq ratio e qs order hperm hsorted
    have hql : i < (qs.map (fun q => collectOne ratio q (e q))).length := by
      simpa using hi
    rw [resAt, he, List.getD_eq_getElem _ _ hql, List.getElem_map,
      List.getD_eq_getElem qs dummyQuery hi]
  constructor
  · intro hf
    rw [key env]
    rcases ho : env (qs.getD i dummyQuery) with msg | msg | r
    · exact ⟨rfl, append_left_ne_empty "处理出错: " msg (by decide)⟩
    · exact ⟨rfl, append_left_ne_empty "任务执行失败: " msg (by decide)⟩
    · cases r with
      | none =>
        refine ⟨rfl, ?_⟩
        show ("搜索无结果" : String) ≠ ""
        decide
      | some rs =>
        rw [ho] at hf
        have hempty : rs.isEmpty = true := by simpa [outcomeFails] using hf
        constructor
        · simp [collectOne, searchPath, hempty, baseResult]
        · simp [collectOne, searchPath, hempty, baseResult]
  · rw [key env, key env2, hagree]

/-- Witness for C3: with the reversed completion order, the first
query's failed search still yields a `搜不到` result with a detail, and
making the second query's processing raise changes nothing at position
0. -/
theorem process_batch_failure_isolation_witness :
    (resAt (process_batch (fun _ _ => 0) (fun _ => Outcome.ret none) [qB, qA])
      0).validation_result = "搜不到" ∧
    (resAt (process_batch (fun _ _ => 0) (fun _ => Outcome.ret none) [qB, qA])
      0).details ≠ "" ∧
    resAt (process_batch (fun _ _ => 0)
      (fun q => if q = qB then Outcome.exn "boom" else Outcome.ret none) [qB, qA]) 0 =
      resAt (process_batch (fun _ _ => 0) (fun _ => Outcome.ret none) [qB, qA]) 0 := by
  have h := process_batch_failure_isolation (fun _ _ => 0)
    (fun _ => Outcome.ret none)
    (fun q => if q = qB then Outcome.exn "boom" else Outcome.ret none)
    [qA, qB] [qB, qA] (by decide) (by decide) 0 (by decide) (by decide)
  exact ⟨(h.1 (by decide)).1, (h.1 (by decide)).2, h.2⟩
